import Mathlib

/-!
# clean_secrets: a verification development of `src/index.js`

The script lists the secrets of a project, partitions them with a skip list,
prints a summary, asks two yes/no questions and deletes the secrets that were
not skipped.  The definitions below are a shallow embedding of the functions of
`src/index.js`; the theorems state what those functions compute.

Modelling conventions.
* A JavaScript string is a Lean `String`; `undefined` is `none`.
* `for (const x of xs)` loops are folds (or a structural recursion when the
  body can leave the loop early); `push` appends at the end.
* The outside world (remote store, console, readline) is an explicit
  `World`: the state of the remote store plus the trace of observable events.
-/

set_option autoImplicit false

namespace CleanSecrets

/-! ## JavaScript string primitives -/

/-- Segments of a character list around every occurrence of `sep`, as
`String.prototype.split` with a one-character separator returns them: the
result is never empty and a separator at either end yields an empty segment. -/
def splitChars (sep : Char) : List Char → List (List Char)
  | [] => [[]]
  | c :: cs =>
    if c = sep then [] :: splitChars sep cs
    else
      match splitChars sep cs with
      | [] => [[c]]
      | seg :: segs => (c :: seg) :: segs

/-- The call `s.split(sep)` for a one-character separator. -/
def jsSplit (s : String) (sep : Char) : List String :=
  (splitChars sep s.data).map String.mk

/-- White space and line terminators, the characters `String.prototype.trim`
strips (ECMAScript `WhiteSpace` and `LineTerminator`). -/
def isJsWhitespace (c : Char) : Bool :=
  let n := c.toNat
  n = 0x09 || n = 0x0A || n = 0x0B || n = 0x0C || n = 0x0D || n = 0x20 ||
  n = 0xA0 || n = 0x1680 || (0x2000 ≤ n && n ≤ 0x200A) ||
  n = 0x2028 || n = 0x2029 || n = 0x202F || n = 0x205F || n = 0x3000 || n = 0xFEFF

/-- The call `s.trim()`. -/
def jsTrim (s : String) : String :=
  String.mk (((s.data.dropWhile isJsWhitespace).reverse.dropWhile isJsWhitespace).reverse)

/-- Truthiness of a value that is a string or `undefined`: `undefined` and the
empty string are falsy, every other string is truthy. -/
def truthy : Option String → Bool
  | none => false
  | some s => s ≠ ""

/-! ## Environment and `envOrThrow` -/

/-- The variables of the process environment: a variable is unset or holds a string. -/
abbrev Env := String → Option String

/-- The names that every ordinary object inherits from `Object.prototype`. -/
def objectPrototypeKeys : List String :=
  ["constructor", "__defineGetter__", "__defineSetter__", "hasOwnProperty",
   "__lookupGetter__", "__lookupSetter__", "isPrototypeOf", "propertyIsEnumerable",
   "toString", "valueOf", "__proto__", "toLocaleString"]

/-- What a read of `process.env[name]` yields besides `undefined`: the string
of a set variable, or the member (a function or an object, never a string) that
the lookup finds on `Object.prototype` when no variable of that name is set. -/
inductive EnvValue where
  | str (value : String)
  | inherited (key : String)
  deriving DecidableEq, Repr

/-- The property read `process.env[name]`: the string of the variable when it
is set; otherwise the lookup goes on to `Object.prototype`; `none` is `undefined`. -/
def processEnv (env : Env) (name : String) : Option EnvValue :=
  match env name with
  | some v => some (EnvValue.str v)
  | none => if name ∈ objectPrototypeKeys then some (EnvValue.inherited name) else none

/-- Truthiness of a value read from `process.env`: `undefined` and the empty
string are falsy, every other string and every inherited member is truthy. -/
def truthyEnv : Option EnvValue → Bool
  | none => false
  | some (EnvValue.str v) => v ≠ ""
  | some (EnvValue.inherited _) => true

/-- The error class `MissingEnv`: the message built by the constructor and the
`name` property it sets. -/
structure MissingEnv where
  message : String
  name : String
  deriving DecidableEq, Repr

/-- The constructor `new MissingEnv(name)`. -/
def MissingEnv.new (name : String) : MissingEnv :=
  { message := "You must provide " ++ name ++ " as an environement variable"
    name := "MissingEnv" }

/-- The function `envOrThrow`: what `process.env[name]` yields when that is
truthy, otherwise a thrown `MissingEnv`. -/
def envOrThrow (env : Env) (name : String) : Except MissingEnv EnvValue :=
  let res := processEnv env name
  match res with
  | some v => if truthyEnv res then Except.ok v else Except.error (MissingEnv.new name)
  | none => Except.error (MissingEnv.new name)

/-! ## The skip list: `getSkips` -/

/-- The function `getSkips`.  The argument is the content of `./skip.txt`, or
`none` when `fs.existsSync` says the file is absent. -/
def getSkips (file : Option String) : List String :=
  match file with
  | none => []
  | some raw =>
    (jsSplit raw '\n').foldl
      (fun skips l => if l.length = 0 then skips else skips ++ [jsTrim l]) []

/-! ## Secrets, `displaySkipped` and `whatToDelete` -/

/-- A secret record as the remote store lists it.  Only `name` is read by the
script, which calls `split` on it, so it is a string for every listed secret;
the other attributes of the record travel along untouched. -/
structure Secret where
  name : String
  etag : String := ""
  deriving DecidableEq, Repr

/-- The fourth element of `s.name.split` on the slash, what the destructuring
`[_projects, _projectsId, _secrets, name]` binds to `name`; `none` is `undefined`. -/
def fourthSegment (fullName : String) : Option String :=
  (jsSplit fullName '/')[3]?

/-- The function `displaySkipped`. -/
def displaySkipped (skipped : List Secret) : String :=
  skipped.foldl
    (fun str s =>
      match fourthSegment s.name with
      | some name => if truthy (some name) then str ++ ("- " ++ name ++ "\n") else str
      | none => str)
    ""

/-- The object `{ toDelete, skipped }` returned by `whatToDelete`. -/
structure Partition where
  toDelete : List Secret
  skipped : List Secret
  deriving DecidableEq, Repr

/-- One iteration of the loop of `whatToDelete`. -/
def whatToDeleteStep (skips : List String) (acc : Partition) (s : Secret) : Partition :=
  match fourthSegment s.name with
  | none => acc
  | some name =>
    if !truthy (some name) then acc
    else if truthy (skips.find? (fun n => n = name)) then
      { acc with skipped := acc.skipped ++ [s] }
    else
      { acc with toDelete := acc.toDelete ++ [s] }

/-- The function `whatToDelete`. -/
def whatToDelete (secrets : List Secret) (skips : List String) : Partition :=
  secrets.foldl (whatToDeleteStep skips) { toDelete := [], skipped := [] }

/-! ## The outside world -/

/-- Observable events, in the order the script causes them. -/
inductive Event where
  /-- A line written with `console.log`. -/
  | print (line : String)
  /-- A prompt shown by `rl.question`. -/
  | question (prompt : String)
  /-- The call `console.time(label)`. -/
  | timeStart (label : String)
  /-- The call `console.timeEnd(label)`. -/
  | timeEnd (label : String)
  /-- The call `rl.close()`. -/
  | rlClose
  /-- A request `client.deleteSecret` for `name` sent to the remote store. -/
  | deleteCall (name : String)
  deriving DecidableEq, Repr

/-- The remote store in state `store` and everything observed so far. -/
structure World (σ : Type) where
  store : σ
  trace : List Event

/-- The remote client: a delete request transforms the store and either
completes (`none`) or fails with an error (`some e`). -/
structure Client (σ ε : Type) where
  deleteSecret : String → σ → Option ε × σ

/-- The names of the delete requests of a trace, in order. -/
def deleteCalls (trace : List Event) : List String :=
  trace.filterMap (fun ev => match ev with
    | Event.deleteCall n => some n
    | _ => none)

/-- The lines printed in a trace, in order. -/
def printed (trace : List Event) : List String :=
  trace.filterMap (fun ev => match ev with
    | Event.print l => some l
    | _ => none)

/-- The function `deleteSecrets`.  The result is the settlement of the promise
(`Except.error` is a rejection) and the world it leaves.  A rejected
`await client.deleteSecret` leaves the loop.  The read of `DRY_RUN` is compared
with the string `true`; `Object.prototype` has no member of that name, so the
read is the variable itself. -/
def deleteSecrets {σ ε : Type} (client : Client σ ε) (env : Env) :
    List Secret → World σ → Except ε Unit × World σ
  | [], w => (Except.ok (), w)
  | s :: rest, w =>
    if env "DRY_RUN" = some "true" then
      deleteSecrets client env rest
        { w with trace := w.trace ++ [Event.print ("DRY_RUN: " ++ s.name ++ " deleted.")] }
    else
      match client.deleteSecret s.name w.store with
      | (some e, st) =>
        (Except.error e, { store := st, trace := w.trace ++ [Event.deleteCall s.name] })
      | (none, st) =>
        deleteSecrets client env rest
          { store := st
            trace := w.trace ++ [Event.deleteCall s.name, Event.print (s.name ++ " deleted.")] }

/-- How the process ends: a call of `process.exit`, or a rejected promise that
nothing handles (no call of `process.exit` is reached). -/
inductive Outcome (ε : Type) where
  | exit (code : Nat)
  | unhandledRejection (err : ε)
  deriving DecidableEq, Repr

/-- The first prompt. -/
def firstPrompt : String := "Do you want to proceed? [y/n] "

/-- The second prompt. -/
def secondPrompt : String := "Are you sure? [y/n] "

/-- The hint printed on the abort paths. -/
def scaredHint : String := "\nIf you\x27re scared, you can use DRY_RUN\n"

/-- The nested `rl.question` callbacks at the end of the script: `fstyn` is the
line answered to the first prompt, `yn` the line answered to the second one
(read only when the second prompt is shown). -/
def confirmationGate {σ ε : Type} (client : Client σ ε) (env : Env) (toDelete : List Secret)
    (fstyn yn : String) (w : World σ) : Outcome ε × World σ :=
  let w1 : World σ := { w with trace := w.trace ++ [Event.question firstPrompt] }
  if fstyn = "y" then
    let w2 : World σ := { w1 with trace := w1.trace ++ [Event.question secondPrompt] }
    if yn = "y" then
      let w3 : World σ := { w2 with trace := w2.trace ++ [Event.timeStart "Done in"] }
      match deleteSecrets client env toDelete w3 with
      | (Except.ok (), w4) =>
        (Outcome.exit 0,
          { w4 with trace := w4.trace ++ [Event.rlClose, Event.timeEnd "Done in"] })
      | (Except.error e, w4) => (Outcome.unhandledRejection e, w4)
    else
      (Outcome.exit 1, { w2 with trace := w2.trace ++ [Event.rlClose, Event.print scaredHint] })
  else
    (Outcome.exit 1, { w1 with trace := w1.trace ++ [Event.rlClose, Event.print scaredHint] })

/-! ## Vocabulary of the specification -/

/-- The short-name of a secret: the fourth slash-delimited segment of its
name, when that segment is present and not empty. -/
def shortName (s : Secret) : Option String :=
  match fourthSegment s.name with
  | some n => if n = "" then none else some n
  | none => none

/-- The final slash-delimited segment of a fully-qualified name. -/
def lastSegment (fullName : String) : Option String :=
  (jsSplit fullName '/').getLast?

/-- The short-name of the secret is an element of the skip list. -/
def inSkipList (skips : List String) (s : Secret) : Bool :=
  match shortName s with
  | some n => decide (n ∈ skips)
  | none => false

/-- The secret has a short-name and it is equal to no element of the skip list. -/
def notInSkipList (skips : List String) (s : Secret) : Bool :=
  match shortName s with
  | some n => decide (n ∉ skips)
  | none => false

/-- The listing of short-names, one line `- <name>` per name, every line
ended by a newline. -/
def bulletLines : List String → String
  | [] => ""
  | n :: ns => "- " ++ n ++ "\n" ++ bulletLines ns

/-- The store reached when delete requests for `names` are sent in order from
`st` and every one of them completes; `none` when one of them fails. -/
def allSucceed {σ ε : Type} (client : Client σ ε) : List String → σ → Option σ
  | [], st => some st
  | n :: ns, st =>
    match client.deleteSecret n st with
    | (none, st1) => allSucceed client ns st1
    | (some _, _) => none

/-! ## A concrete remote store, for the examples -/

/-- A remote store that holds a list of secret names: deleting a name it holds
removes it, deleting any other name fails with `NOT_FOUND`. -/
def listStore : Client (List String) String where
  deleteSecret := fun name st =>
    if name ∈ st then (none, st.erase name) else (some "NOT_FOUND", st)

/-- An environment in which only `DRY_RUN` is set, to `true`. -/
def dryRunEnv : Env := fun v => if v = "DRY_RUN" then some "true" else none

/-- An environment in which no variable is set. -/
def emptyEnv : Env := fun _ => none

/-- Three secrets `a`, `b`, `c` of the project `p`. -/
def threeSecrets : List Secret :=
  [⟨"projects/p/secrets/a", ""⟩, ⟨"projects/p/secrets/b", ""⟩, ⟨"projects/p/secrets/c", ""⟩]

/-- A world whose store holds the secrets `a` and `c` only, with nothing observed yet. -/
def twoHeld : World (List String) :=
  { store := ["projects/p/secrets/a", "projects/p/secrets/c"], trace := [] }

/-- A remote store that refuses every delete request. -/
def deniedStore : Client (List String) String where
  deleteSecret := fun _ st => (some "PERMISSION_DENIED", st)

/-! ## Sanity checks on concrete inputs -/

example : jsSplit "projects/p/secrets/a" '/' = ["projects", "p", "secrets", "a"] := by decide
example : jsSplit "" '/' = [""] := by decide
example : jsSplit "a\nb\n" '\n' = ["a", "b", ""] := by decide
example : jsTrim "  a b \r" = "a b" := by decide
example : getSkips (some "a\n  \nb\n") = ["a", "", "b"] := by decide
example : fourthSegment "projects/p/secrets/a/versions/1" = some "a" := by decide
example : displaySkipped [⟨"projects/p/secrets/a", ""⟩, ⟨"x", ""⟩] = "- a\n" := by decide

/-! ## Helper lemmas -/

theorem truthy_find (skips : List String) (name : String) (h : name ≠ "") :
    truthy (skips.find? (fun n => decide (n = name))) = decide (name ∈ skips) := by
  induction skips with
  | nil => simp [truthy]
  | cons a t ih =>
    by_cases hEq : a = name
    · subst hEq
      simp [List.find?_cons, truthy, h]
    · have hne : ¬ name = a := fun e => hEq e.symm
      simp [List.find?_cons, hEq, hne, ih]

theorem whatToDeleteStep_eq (skips : List String) (acc : Partition) (s : Secret) :
    whatToDeleteStep skips acc s =
      { toDelete := acc.toDelete ++ (if notInSkipList skips s then [s] else [])
        skipped := acc.skipped ++ (if inSkipList skips s then [s] else []) } := by
  unfold whatToDeleteStep notInSkipList inSkipList shortName
  cases hseg : fourthSegment s.name with
  | none => simp
  | some n =>
    by_cases hn : n = ""
    · simp [hn, truthy]
    · have ht : truthy (some n) = true := by simp [truthy, hn]
      have hf := truthy_find skips n hn
      by_cases hm : n ∈ skips <;> simp [ht, hn, hm, hf]

theorem foldl_whatToDeleteStep (skips : List String) (secrets : List Secret) (acc : Partition) :
    secrets.foldl (whatToDeleteStep skips) acc =
      { toDelete := acc.toDelete ++ secrets.filter (notInSkipList skips)
        skipped := acc.skipped ++ secrets.filter (inSkipList skips) } := by
  induction secrets generalizing acc with
  | nil => simp
  | cons s t ih =>
    rw [List.foldl_cons, ih, whatToDeleteStep_eq]
    by_cases h1 : notInSkipList skips s = true <;> by_cases h2 : inSkipList skips s = true <;>
      simp [List.filter_cons, h1, h2]

theorem whatToDelete_eq (secrets : List Secret) (skips : List String) :
    whatToDelete secrets skips =
      { toDelete := secrets.filter (notInSkipList skips)
        skipped := secrets.filter (inSkipList skips) } := by
  unfold whatToDelete
  rw [foldl_whatToDeleteStep]
  simp

theorem shortName_ne_empty {s : Secret} {n : String} (h : shortName s = some n) : n ≠ "" := by
  unfold shortName at h
  cases hseg : fourthSegment s.name with
  | none => simp [hseg] at h
  | some m =>
    by_cases hm : m = ""
    · simp [hseg, hm] at h
    · simp [hseg, hm] at h
      exact h ▸ hm

theorem inSkipList_iff (skips : List String) (s : Secret) :
    inSkipList skips s = true ↔ ∃ n, shortName s = some n ∧ n ∈ skips := by
  unfold inSkipList
  cases shortName s <;> simp

theorem notInSkipList_iff (skips : List String) (s : Secret) :
    notInSkipList skips s = true ↔ ∃ n, shortName s = some n ∧ n ∉ skips := by
  unfold notInSkipList
  cases shortName s <;> simp

theorem not_both (skips : List String) (s : Secret)
    (h1 : notInSkipList skips s = true) (h2 : inSkipList skips s = true) : False := by
  obtain ⟨n, hn, hnot⟩ := (notInSkipList_iff skips s).1 h1
  obtain ⟨m, hm, hin⟩ := (inSkipList_iff skips s).1 h2
  rw [hn] at hm
  cases hm
  exact hnot hin

theorem shortName_of_length_lt {s : Secret} (h : (jsSplit s.name '/').length < 4) :
    shortName s = none := by
  unfold shortName fourthSegment
  have : (jsSplit s.name '/')[3]? = none := by
    rw [List.getElem?_eq_none_iff]
    omega
  simp [this]

/-! ## The partitioner `whatToDelete` -/

/-- C1: `whatToDelete` returns as `skipped` exactly the input secrets, in input
order, whose short-name is an element of the skip list, and as `toDelete`
exactly the input secrets, in input order, whose short-name is present, not
empty and equal to no element of the skip list.  With the skip list `a`, `b`
and four secrets of short-names `a`, `b`, `c`, `d`, the secrets named `c` and
`d` are to delete and the secrets named `a` and `b` are skipped. -/
theorem whatToDelete_partition (secrets : List Secret) (skips : List String) :
    (whatToDelete secrets skips).skipped = secrets.filter (inSkipList skips) ∧
    (whatToDelete secrets skips).toDelete = secrets.filter (notInSkipList skips) ∧
    (∀ s, inSkipList skips s = true ↔ ∃ n, shortName s = some n ∧ n ∈ skips) ∧
    (∀ s, notInSkipList skips s = true ↔ ∃ n, shortName s = some n ∧ n ∉ skips) ∧
    (∀ sa sb sc sd : Secret,
      shortName sa = some "a" → shortName sb = some "b" →
      shortName sc = some "c" → shortName sd = some "d" →
      whatToDelete [sa, sb, sc, sd] ["a", "b"] =
        { toDelete := [sc, sd], skipped := [sa, sb] }) := by
  refine ⟨by rw [whatToDelete_eq], by rw [whatToDelete_eq], inSkipList_iff skips,
    notInSkipList_iff skips, ?_⟩
  intro sa sb sc sd ha hb hc hd
  rw [whatToDelete_eq]
  simp [List.filter_cons, inSkipList, notInSkipList, ha, hb, hc, hd]

/-- Witness for C1 on four concrete secrets of one project. -/
theorem whatToDelete_partition_witness :
    whatToDelete
        [⟨"projects/p/secrets/a", ""⟩, ⟨"projects/p/secrets/b", ""⟩,
         ⟨"projects/p/secrets/c", ""⟩, ⟨"projects/p/secrets/d", ""⟩] ["a", "b"] =
      { toDelete := [⟨"projects/p/secrets/c", ""⟩, ⟨"projects/p/secrets/d", ""⟩]
        skipped := [⟨"projects/p/secrets/a", ""⟩, ⟨"projects/p/secrets/b", ""⟩] } :=
  (whatToDelete_partition [] []).2.2.2.2
    ⟨"projects/p/secrets/a", ""⟩ ⟨"projects/p/secrets/b", ""⟩
    ⟨"projects/p/secrets/c", ""⟩ ⟨"projects/p/secrets/d", ""⟩
    (by decide) (by decide) (by decide) (by decide)

/-- C2: the two lists returned by `whatToDelete` are disjoint, every member of
either list is a member of the input, every input secret with a short-name is
in exactly one of the two lists (as often as in the input), and every input
secret whose name has fewer than four slash-delimited segments is in neither. -/
theorem whatToDelete_disjoint_cover (secrets : List Secret) (skips : List String) :
    List.Disjoint (whatToDelete secrets skips).toDelete (whatToDelete secrets skips).skipped ∧
    (∀ s, s ∈ (whatToDelete secrets skips).toDelete → s ∈ secrets) ∧
    (∀ s, s ∈ (whatToDelete secrets skips).skipped → s ∈ secrets) ∧
    (∀ s, s ∈ secrets → (shortName s).isSome = true →
      ((s ∈ (whatToDelete secrets skips).toDelete ∧ s ∉ (whatToDelete secrets skips).skipped) ∨
       (s ∈ (whatToDelete secrets skips).skipped ∧ s ∉ (whatToDelete secrets skips).toDelete)) ∧
      (whatToDelete secrets skips).toDelete.count s + (whatToDelete secrets skips).skipped.count s
        = secrets.count s) ∧
    (∀ s, s ∈ secrets → (jsSplit s.name '/').length < 4 →
      s ∉ (whatToDelete secrets skips).toDelete ∧ s ∉ (whatToDelete secrets skips).skipped) := by
  rw [whatToDelete_eq]
  refine ⟨?_, ?_, ?_, ?_, ?_⟩
  · intro s h1 h2
    exact not_both skips s (List.mem_filter.1 h1).2 (List.mem_filter.1 h2).2
  · intro s h
    exact (List.mem_filter.1 h).1
  · intro s h
    exact (List.mem_filter.1 h).1
  · intro s hs hsome
    obtain ⟨n, hn⟩ := Option.isSome_iff_exists.1 hsome
    by_cases hm : n ∈ skips
    · have hin : inSkipList skips s = true := (inSkipList_iff skips s).2 ⟨n, hn, hm⟩
      have hnot : ¬ notInSkipList skips s = true := fun h => not_both skips s h hin
      have hmem : s ∉ secrets.filter (notInSkipList skips) := fun h => hnot (List.mem_filter.1 h).2
      refine ⟨Or.inr ⟨List.mem_filter.2 ⟨hs, hin⟩, hmem⟩, ?_⟩
      show List.count s (secrets.filter (notInSkipList skips)) +
        List.count s (secrets.filter (inSkipList skips)) = List.count s secrets
      rw [List.count_eq_zero_of_not_mem hmem, List.count_filter hin]
      omega
    · have hin : notInSkipList skips s = true := (notInSkipList_iff skips s).2 ⟨n, hn, hm⟩
      have hnot : ¬ inSkipList skips s = true := fun h => not_both skips s hin h
      have hmem : s ∉ secrets.filter (inSkipList skips) := fun h => hnot (List.mem_filter.1 h).2
      refine ⟨Or.inl ⟨List.mem_filter.2 ⟨hs, hin⟩, hmem⟩, ?_⟩
      show List.count s (secrets.filter (notInSkipList skips)) +
        List.count s (secrets.filter (inSkipList skips)) = List.count s secrets
      rw [List.count_eq_zero_of_not_mem hmem, List.count_filter hin]
      omega
  · intro s _ hlen
    have hnone := shortName_of_length_lt hlen
    constructor
    · intro h
      obtain ⟨n, hn, _⟩ := (notInSkipList_iff skips s).1 (List.mem_filter.1 h).2
      rw [hnone] at hn
      cases hn
    · intro h
      obtain ⟨n, hn, _⟩ := (inSkipList_iff skips s).1 (List.mem_filter.1 h).2
      rw [hnone] at hn
      cases hn

/-- Witness for C2: a secret with a short-name and a secret with a two-segment name. -/
theorem whatToDelete_disjoint_cover_witness :
    (⟨"projects/p/secrets/a", ""⟩ : Secret) ∉
        (whatToDelete [⟨"projects/p/secrets/a", ""⟩, ⟨"projects/p", ""⟩] ["a"]).toDelete ∧
    (⟨"projects/p", ""⟩ : Secret) ∉
        (whatToDelete [⟨"projects/p/secrets/a", ""⟩, ⟨"projects/p", ""⟩] ["a"]).toDelete ∧
    (⟨"projects/p", ""⟩ : Secret) ∉
        (whatToDelete [⟨"projects/p/secrets/a", ""⟩, ⟨"projects/p", ""⟩] ["a"]).skipped :=
  ⟨fun h => (whatToDelete_disjoint_cover
      [⟨"projects/p/secrets/a", ""⟩, ⟨"projects/p", ""⟩] ["a"]).1 h (by decide),
   ((whatToDelete_disjoint_cover [⟨"projects/p/secrets/a", ""⟩, ⟨"projects/p", ""⟩] ["a"]).2.2.2.2
      ⟨"projects/p", ""⟩ (by decide) (by decide)).1,
   ((whatToDelete_disjoint_cover [⟨"projects/p/secrets/a", ""⟩, ⟨"projects/p", ""⟩] ["a"]).2.2.2.2
      ⟨"projects/p", ""⟩ (by decide) (by decide)).2⟩

/-- A name of exactly four segments has its fourth segment last. -/
theorem fourth_eq_last_of_length {l : List String} (h : l.length = 4) : l[3]? = l.getLast? := by
  match l, h with
  | [_, _, _, _], _ => rfl

theorem skips_same_nonempty {skips1 skips2 : List String}
    (h : ∀ n, n ≠ "" → (n ∈ skips1 ↔ n ∈ skips2)) (s : Secret) :
    inSkipList skips1 s = inSkipList skips2 s ∧ notInSkipList skips1 s = notInSkipList skips2 s := by
  unfold inSkipList notInSkipList
  cases hs : shortName s with
  | none => simp
  | some n =>
    have hn := h n (shortName_ne_empty hs)
    simp [hn]

theorem whatToDelete_congr {skips1 skips2 : List String}
    (h : ∀ n, n ≠ "" → (n ∈ skips1 ↔ n ∈ skips2)) (secrets : List Secret) :
    whatToDelete secrets skips1 = whatToDelete secrets skips2 := by
  rw [whatToDelete_eq, whatToDelete_eq]
  have h1 : inSkipList skips1 = inSkipList skips2 := funext fun s => (skips_same_nonempty h s).1
  have h2 : notInSkipList skips1 = notInSkipList skips2 :=
    funext fun s => (skips_same_nonempty h s).2
  rw [h1, h2]

/-- C5, as stated, fails: the partitioner matches the fourth segment, not the
final one.  A name of six segments whose final segment is in the skip list is
not skipped (it is deleted), a name of six segments whose fourth segment is in
the skip list is skipped although its final segment is not, and an empty final
segment that is in the skip list does not put the secret in `skipped`. -/
theorem whatToDelete_last_segment_counterexample :
    (lastSegment "projects/p/secrets/a/versions/1" = some "1" ∧
      whatToDelete [⟨"projects/p/secrets/a/versions/1", ""⟩] ["1"] =
        { toDelete := [⟨"projects/p/secrets/a/versions/1", ""⟩], skipped := [] }) ∧
    (lastSegment "projects/p/secrets/a/versions/1" = some "1" ∧
      whatToDelete [⟨"projects/p/secrets/a/versions/1", ""⟩] ["a"] =
        { toDelete := [], skipped := [⟨"projects/p/secrets/a/versions/1", ""⟩] }) ∧
    (lastSegment "projects/p/secrets/" = some "" ∧
      whatToDelete [⟨"projects/p/secrets/", ""⟩] [""] = { toDelete := [], skipped := [] }) := by
  decide

theorem mem_skipped_iff_fourth (secrets : List Secret) (skips : List String) (s : Secret)
    (hs : s ∈ secrets) :
    s ∈ (whatToDelete secrets skips).skipped ↔
      ∃ n, fourthSegment s.name = some n ∧ n ≠ "" ∧ n ∈ skips := by
  rw [whatToDelete_eq]
  show s ∈ secrets.filter (inSkipList skips) ↔ _
  rw [List.mem_filter, inSkipList_iff]
  constructor
  · rintro ⟨_, n, hn, hm⟩
    refine ⟨n, ?_, shortName_ne_empty hn, hm⟩
    unfold shortName at hn
    cases hseg : fourthSegment s.name with
    | none => simp [hseg] at hn
    | some m =>
      by_cases hm0 : m = ""
      · simp [hseg, hm0] at hn
      · simp [hseg, hm0] at hn
        rw [hn]
  · rintro ⟨n, hn, hne, hm⟩
    refine ⟨hs, n, ?_, hm⟩
    unfold shortName
    simp [hn, hne]

/-- C5, amended: the short-name that `whatToDelete` matches against the skip
list is the fourth slash-delimited segment of the name, for every name: an
input secret is placed in `skipped` exactly when its name has a fourth segment
that is not empty and is an element of the skip list.  For a secret whose name
has exactly four segments that segment is the final one, and the secret is
placed in `skipped` exactly when its final segment is not empty and is an
element of the skip list. -/
theorem whatToDelete_skips_final_segment (secrets : List Secret) (skips : List String)
    (s : Secret) (hs : s ∈ secrets) :
    (s ∈ (whatToDelete secrets skips).skipped ↔
      ∃ n, fourthSegment s.name = some n ∧ n ≠ "" ∧ n ∈ skips) ∧
    ((jsSplit s.name '/').length = 4 →
      fourthSegment s.name = lastSegment s.name ∧
      (s ∈ (whatToDelete secrets skips).skipped ↔
        ∃ n, lastSegment s.name = some n ∧ n ≠ "" ∧ n ∈ skips)) := by
  have hfourth := mem_skipped_iff_fourth secrets skips s hs
  refine ⟨hfourth, fun hlen => ?_⟩
  have heq : fourthSegment s.name = lastSegment s.name := fourth_eq_last_of_length hlen
  refine ⟨heq, ?_⟩
  rw [← heq]
  exact hfourth

/-- Witness for the amended C5: a four-segment name, skipped through its final
segment, and a six-segment name, skipped through its fourth segment. -/
theorem whatToDelete_skips_final_segment_witness :
    (⟨"projects/p/secrets/a", ""⟩ : Secret) ∈ [(⟨"projects/p/secrets/a", ""⟩ : Secret)] ∧
    (jsSplit "projects/p/secrets/a" '/').length = 4 ∧
    (fourthSegment "projects/p/secrets/a" = lastSegment "projects/p/secrets/a" ∧
      ((⟨"projects/p/secrets/a", ""⟩ : Secret) ∈
          (whatToDelete [⟨"projects/p/secrets/a", ""⟩] ["a"]).skipped ↔
        ∃ n, lastSegment "projects/p/secrets/a" = some n ∧ n ≠ "" ∧ n ∈ ["a"])) ∧
    ((⟨"projects/p/secrets/a/versions/1", ""⟩ : Secret) ∈
        (whatToDelete [⟨"projects/p/secrets/a/versions/1", ""⟩] ["a"]).skipped ↔
      ∃ n, fourthSegment "projects/p/secrets/a/versions/1" = some n ∧ n ≠ "" ∧ n ∈ ["a"]) :=
  ⟨by decide, by decide,
    (whatToDelete_skips_final_segment [⟨"projects/p/secrets/a", ""⟩] ["a"]
      ⟨"projects/p/secrets/a", ""⟩ (by decide)).2 (by decide),
    (whatToDelete_skips_final_segment [⟨"projects/p/secrets/a/versions/1", ""⟩] ["a"]
      ⟨"projects/p/secrets/a/versions/1", ""⟩ (by decide)).1⟩

/-- C10: the result of `whatToDelete` depends on the skip list only through
its set of non-empty members: two skip lists with the same non-empty elements
give the same `toDelete` and `skipped`, whatever the order, the multiplicities
and the number of empty entries.  An empty entry never causes a secret to be
skipped: adding one changes nothing, every skipped secret has a non-empty
short-name in the skip list, and the empty entry that `getSkips` produces for
a whitespace-only line is without effect. -/
theorem whatToDelete_skips_as_set (secrets : List Secret) (skips1 skips2 : List String)
    (h : ∀ n, n ≠ "" → (n ∈ skips1 ↔ n ∈ skips2)) :
    whatToDelete secrets skips1 = whatToDelete secrets skips2 ∧
    whatToDelete secrets ("" :: skips1) = whatToDelete secrets skips1 ∧
    whatToDelete secrets (skips1.filter (fun n => n ≠ "")) = whatToDelete secrets skips1 ∧
    (∀ s, s ∈ (whatToDelete secrets skips1).skipped →
      ∃ n, shortName s = some n ∧ n ≠ "" ∧ n ∈ skips1) ∧
    whatToDelete secrets (getSkips (some "a\n  \nb\n")) = whatToDelete secrets ["a", "b"] := by
  refine ⟨whatToDelete_congr h secrets, ?_, ?_, ?_, ?_⟩
  · apply whatToDelete_congr
    intro n hn
    have hne : ¬ n = "" := hn
    simp [hne]
  · apply whatToDelete_congr
    intro n hn
    have hne : ¬ n = "" := hn
    simp [List.mem_filter, hne]
  · intro s hsk
    rw [whatToDelete_eq] at hsk
    obtain ⟨n, hn, hm⟩ := (inSkipList_iff skips1 s).1 (List.mem_filter.1 hsk).2
    exact ⟨n, hn, shortName_ne_empty hn, hm⟩
  · have hg : getSkips (some "a\n  \nb\n") = ["a", "", "b"] := by decide
    rw [hg]
    apply whatToDelete_congr
    intro n hn
    have hne : ¬ n = "" := hn
    simp [hne]

/-- Witness for C10: a reordered skip list with a duplicate and an empty entry. -/
theorem whatToDelete_skips_as_set_witness :
    (∀ n, n ≠ "" → (n ∈ ["b", "", "a", "b"] ↔ n ∈ ["a", "b"])) ∧
    whatToDelete [⟨"projects/p/secrets/a", ""⟩, ⟨"projects/p/secrets/", ""⟩,
        ⟨"projects/p/secrets/c", ""⟩] ["b", "", "a", "b"] =
      whatToDelete [⟨"projects/p/secrets/a", ""⟩, ⟨"projects/p/secrets/", ""⟩,
        ⟨"projects/p/secrets/c", ""⟩] ["a", "b"] :=
  ⟨fun n hn => by simp only [List.mem_cons, List.mem_singleton, List.not_mem_nil]; tauto,
   (whatToDelete_skips_as_set
      [⟨"projects/p/secrets/a", ""⟩, ⟨"projects/p/secrets/", ""⟩, ⟨"projects/p/secrets/c", ""⟩]
      ["b", "", "a", "b"] ["a", "b"]
      (fun n hn => by simp only [List.mem_cons, List.mem_singleton, List.not_mem_nil]; tauto)).1⟩

/-! ## The deleter `deleteSecrets` -/

theorem deleteCalls_append (a b : List Event) :
    deleteCalls (a ++ b) = deleteCalls a ++ deleteCalls b := by
  simp [deleteCalls, List.filterMap_append]

theorem deleteCalls_dry_lines (secrets : List Secret) :
    deleteCalls (secrets.map
      (fun s => Event.print ("DRY_RUN: " ++ s.name ++ " deleted."))) = [] := by
  induction secrets with
  | nil => rfl
  | cons s t ih =>
    rw [List.map_cons]
    exact ih

theorem printed_append (a b : List Event) : printed (a ++ b) = printed a ++ printed b := by
  simp [printed, List.filterMap_append]

theorem dryRun_result {σ ε : Type} (client : Client σ ε) (env : Env)
    (h : env "DRY_RUN" = some "true") (secrets : List Secret) (w : World σ) :
    deleteSecrets client env secrets w =
      (Except.ok (),
        { store := w.store
          trace := w.trace ++
            secrets.map (fun s => Event.print ("DRY_RUN: " ++ s.name ++ " deleted.")) }) := by
  induction secrets generalizing w with
  | nil => simp [deleteSecrets]
  | cons s t ih =>
    rw [deleteSecrets, if_pos h, ih]
    simp

/-- C4: when `DRY_RUN` is exactly `true`, `deleteSecrets` sends no delete
request, leaves the remote store unchanged, completes, and its only effect is
to print one line `DRY_RUN: <name> deleted.` per secret, in list order. -/
theorem deleteSecrets_dry_run {σ ε : Type} (client : Client σ ε) (env : Env)
    (secrets : List Secret) (w : World σ) (h : env "DRY_RUN" = some "true") :
    deleteSecrets client env secrets w =
      (Except.ok (),
        { store := w.store
          trace := w.trace ++
            secrets.map (fun s => Event.print ("DRY_RUN: " ++ s.name ++ " deleted.")) }) ∧
    (deleteSecrets client env secrets w).2.store = w.store ∧
    deleteCalls (deleteSecrets client env secrets w).2.trace = deleteCalls w.trace ∧
    printed (deleteSecrets client env secrets w).2.trace =
      printed w.trace ++ secrets.map (fun s => "DRY_RUN: " ++ s.name ++ " deleted.") := by
  rw [dryRun_result client env h]
  refine ⟨rfl, rfl, ?_, ?_⟩
  · show deleteCalls (w.trace ++ _) = _
    rw [deleteCalls_append]
    rw [deleteCalls_dry_lines, List.append_nil]
  · show printed (w.trace ++ _) = _
    rw [printed_append]
    congr 1
    induction secrets with
    | nil => rfl
    | cons s t ih => simpa [printed] using ih

/-- Witness for C4: a dry run over two secrets held by a concrete store. -/
theorem deleteSecrets_dry_run_witness :
    dryRunEnv "DRY_RUN" = some "true" ∧
    deleteCalls (deleteSecrets listStore dryRunEnv
        [⟨"projects/p/secrets/a", ""⟩, ⟨"projects/p/secrets/b", ""⟩]
        { store := ["projects/p/secrets/a", "projects/p/secrets/b"], trace := [] }).2.trace
      = deleteCalls [] :=
  ⟨by decide,
   (deleteSecrets_dry_run listStore dryRunEnv
      [⟨"projects/p/secrets/a", ""⟩, ⟨"projects/p/secrets/b", ""⟩]
      { store := ["projects/p/secrets/a", "projects/p/secrets/b"], trace := [] }
      (by decide)).2.2.1⟩

/-- C6: when `DRY_RUN` is not `true`, `deleteSecrets` sends the delete requests
for the names of the list strictly in list order.  Either every request
completes, all names of the list were requested and the promise is fulfilled;
or the requests are exactly those for the secrets up to and including the
first one whose delete fails, no later secret is attempted, and that failure
is the result of `deleteSecrets`. -/
theorem deleteSecrets_in_order {σ ε : Type} (client : Client σ ε) (env : Env)
    (secrets : List Secret) (w : World σ) (h : env "DRY_RUN" ≠ some "true") :
    (∃ st, allSucceed client (secrets.map Secret.name) w.store = some st ∧
      (deleteSecrets client env secrets w).1 = Except.ok () ∧
      (deleteSecrets client env secrets w).2.store = st ∧
      deleteCalls (deleteSecrets client env secrets w).2.trace =
        deleteCalls w.trace ++ secrets.map Secret.name) ∨
    (∃ pre s post st e st1, secrets = pre ++ s :: post ∧
      allSucceed client (pre.map Secret.name) w.store = some st ∧
      client.deleteSecret s.name st = (some e, st1) ∧
      (deleteSecrets client env secrets w).1 = Except.error e ∧
      (deleteSecrets client env secrets w).2.store = st1 ∧
      deleteCalls (deleteSecrets client env secrets w).2.trace =
        deleteCalls w.trace ++ (pre ++ [s]).map Secret.name) := by
  induction secrets generalizing w with
  | nil =>
    left
    exact ⟨w.store, rfl, rfl, rfl, by simp [deleteSecrets]⟩
  | cons s t ih =>
    rw [deleteSecrets, if_neg h]
    cases hd : client.deleteSecret s.name w.store with
    | mk o st0 =>
      cases o with
      | some e =>
        right
        refine ⟨[], s, t, w.store, e, st0, rfl, rfl, hd, rfl, rfl, ?_⟩
        show deleteCalls (w.trace ++ [Event.deleteCall s.name]) = _
        rw [deleteCalls_append]
        rfl
      | none =>
        have hcalls : deleteCalls
            (w.trace ++ [Event.deleteCall s.name, Event.print (s.name ++ " deleted.")]) =
            deleteCalls w.trace ++ [s.name] := by
          rw [deleteCalls_append]
          rfl
        rcases ih { store := st0
                    trace := w.trace ++
                      [Event.deleteCall s.name, Event.print (s.name ++ " deleted.")] } with
          ⟨st, h1, h2, h3, h4⟩ | ⟨pre, x, post, st, e, st1, h0, h1, h2, h3, h4, h5⟩
        · left
          refine ⟨st, ?_, h2, h3, ?_⟩
          · simpa [allSucceed, hd] using h1
          · rw [h4, hcalls]
            simp
        · right
          refine ⟨s :: pre, x, post, st, e, st1, by rw [h0]; rfl, ?_, h2, h3, h4, ?_⟩
          · simpa [allSucceed, hd] using h1
          · rw [h5, hcalls]
            simp

/-- Witness for C6: the second of three deletes fails, the third is not attempted. -/
theorem deleteSecrets_in_order_witness :
    emptyEnv "DRY_RUN" ≠ some "true" ∧
    deleteSecrets listStore emptyEnv threeSecrets twoHeld =
      (Except.error "NOT_FOUND",
        { store := ["projects/p/secrets/c"]
          trace := [Event.deleteCall "projects/p/secrets/a",
                    Event.print "projects/p/secrets/a deleted.",
                    Event.deleteCall "projects/p/secrets/b"] }) ∧
    ((∃ st, allSucceed listStore (threeSecrets.map Secret.name) twoHeld.store = some st ∧
        (deleteSecrets listStore emptyEnv threeSecrets twoHeld).1 = Except.ok () ∧
        (deleteSecrets listStore emptyEnv threeSecrets twoHeld).2.store = st ∧
        deleteCalls (deleteSecrets listStore emptyEnv threeSecrets twoHeld).2.trace =
          deleteCalls twoHeld.trace ++ threeSecrets.map Secret.name) ∨
      (∃ pre s post st e st1, threeSecrets = pre ++ s :: post ∧
        allSucceed listStore (pre.map Secret.name) twoHeld.store = some st ∧
        listStore.deleteSecret s.name st = (some e, st1) ∧
        (deleteSecrets listStore emptyEnv threeSecrets twoHeld).1 = Except.error e ∧
        (deleteSecrets listStore emptyEnv threeSecrets twoHeld).2.store = st1 ∧
        deleteCalls (deleteSecrets listStore emptyEnv threeSecrets twoHeld).2.trace =
          deleteCalls twoHeld.trace ++ (pre ++ [s]).map Secret.name)) :=
  ⟨by decide, by simp [deleteSecrets, emptyEnv, listStore, threeSecrets, twoHeld],
   deleteSecrets_in_order listStore emptyEnv threeSecrets twoHeld (by decide)⟩

/-! ## The confirmation gate -/

/-- The world in which `deleteSecrets` starts once both answers were `y`. -/
theorem confirmationGate_yes {σ ε : Type} (client : Client σ ε) (env : Env)
    (toDelete : List Secret) (w : World σ) :
    confirmationGate client env toDelete "y" "y" w =
      match deleteSecrets client env toDelete
          { store := w.store
            trace := w.trace ++ [Event.question firstPrompt, Event.question secondPrompt,
              Event.timeStart "Done in"] } with
      | (Except.ok (), w4) =>
        (Outcome.exit 0,
          { store := w4.store, trace := w4.trace ++ [Event.rlClose, Event.timeEnd "Done in"] })
      | (Except.error e, w4) => (Outcome.unhandledRejection e, w4) := by
  unfold confirmationGate
  simp [List.append_assoc]

theorem confirmationGate_no_first {σ ε : Type} (client : Client σ ε) (env : Env)
    (toDelete : List Secret) (fstyn yn : String) (w : World σ) (h : fstyn ≠ "y") :
    confirmationGate client env toDelete fstyn yn w =
      (Outcome.exit 1,
        { store := w.store
          trace := w.trace ++
            [Event.question firstPrompt, Event.rlClose, Event.print scaredHint] }) := by
  unfold confirmationGate
  simp [h, List.append_assoc]

theorem confirmationGate_no_second {σ ε : Type} (client : Client σ ε) (env : Env)
    (toDelete : List Secret) (yn : String) (w : World σ) (h : yn ≠ "y") :
    confirmationGate client env toDelete "y" yn w =
      (Outcome.exit 1,
        { store := w.store
          trace := w.trace ++
            [Event.question firstPrompt, Event.question secondPrompt, Event.rlClose,
              Event.print scaredHint] }) := by
  unfold confirmationGate
  simp [h, List.append_assoc]

/-- C3, as stated, fails: with both answers `y` and a remote store that refuses
the delete request, `deleteSecrets` is invoked but its promise is rejected, the
`then` callback does not run and `process.exit(0)` is not reached. -/
theorem confirmationGate_counterexample :
    confirmationGate deniedStore emptyEnv [⟨"projects/p/secrets/a", ""⟩] "y" "y" twoHeld =
      (Outcome.unhandledRejection "PERMISSION_DENIED",
        { store := ["projects/p/secrets/a", "projects/p/secrets/c"]
          trace := [Event.question firstPrompt, Event.question secondPrompt,
            Event.timeStart "Done in", Event.deleteCall "projects/p/secrets/a"] }) ∧
    (confirmationGate deniedStore emptyEnv [⟨"projects/p/secrets/a", ""⟩] "y" "y" twoHeld).1 ≠
      Outcome.exit 0 := by
  constructor
  · simp [confirmationGate, deleteSecrets, emptyEnv, deniedStore, twoHeld]
  · simp [confirmationGate, deleteSecrets, emptyEnv, deniedStore, twoHeld]

/-- C3, amended: the gate proceeds to deletion if and only if the first answer
is exactly `y` and the second answer is exactly `y`.  With both answers `y` it
invokes `deleteSecrets` on `toDelete` and, when no delete fails (always so in a
dry run), ends with exit status 0; the exit status is 0 in no other case.  Any
first answer other than `y` ends with exit status 1 without the second
question being asked, and `y` followed by any other second answer ends with
exit status 1; on both abort paths no delete request is sent and the remote
store is unchanged. -/
theorem confirmationGate_spec {σ ε : Type} (client : Client σ ε) (env : Env)
    (toDelete : List Secret) (fstyn yn : String) (w : World σ) :
    (fstyn = "y" → yn = "y" →
      confirmationGate client env toDelete fstyn yn w =
        match deleteSecrets client env toDelete
            { store := w.store
              trace := w.trace ++ [Event.question firstPrompt, Event.question secondPrompt,
                Event.timeStart "Done in"] } with
        | (Except.ok (), w4) =>
          (Outcome.exit 0,
            { store := w4.store
              trace := w4.trace ++ [Event.rlClose, Event.timeEnd "Done in"] })
        | (Except.error e, w4) => (Outcome.unhandledRejection e, w4)) ∧
    (fstyn ≠ "y" →
      confirmationGate client env toDelete fstyn yn w =
        (Outcome.exit 1,
          { store := w.store
            trace := w.trace ++
              [Event.question firstPrompt, Event.rlClose, Event.print scaredHint] })) ∧
    (fstyn = "y" → yn ≠ "y" →
      confirmationGate client env toDelete fstyn yn w =
        (Outcome.exit 1,
          { store := w.store
            trace := w.trace ++
              [Event.question firstPrompt, Event.question secondPrompt, Event.rlClose,
                Event.print scaredHint] })) ∧
    ((confirmationGate client env toDelete fstyn yn w).1 = Outcome.exit 0 ↔
      fstyn = "y" ∧ yn = "y" ∧
        (deleteSecrets client env toDelete
          { store := w.store
            trace := w.trace ++ [Event.question firstPrompt, Event.question secondPrompt,
              Event.timeStart "Done in"] }).1 = Except.ok ()) ∧
    ((confirmationGate client env toDelete fstyn yn w).1 = Outcome.exit 1 ↔
      ¬ (fstyn = "y" ∧ yn = "y")) ∧
    (¬ (fstyn = "y" ∧ yn = "y") →
      deleteCalls (confirmationGate client env toDelete fstyn yn w).2.trace =
          deleteCalls w.trace ∧
        (confirmationGate client env toDelete fstyn yn w).2.store = w.store) ∧
    (env "DRY_RUN" = some "true" → fstyn = "y" → yn = "y" →
      (confirmationGate client env toDelete fstyn yn w).1 = Outcome.exit 0 ∧
        deleteCalls (confirmationGate client env toDelete fstyn yn w).2.trace =
          deleteCalls w.trace ∧
        (confirmationGate client env toDelete fstyn yn w).2.store = w.store) := by
  have hq1 : ∀ t : List Event, deleteCalls
      (t ++ [Event.question firstPrompt, Event.rlClose, Event.print scaredHint]) =
      deleteCalls t := by
    intro t
    rw [deleteCalls_append]
    exact List.append_nil _
  have hq2 : ∀ t : List Event, deleteCalls
      (t ++ [Event.question firstPrompt, Event.question secondPrompt, Event.rlClose,
        Event.print scaredHint]) = deleteCalls t := by
    intro t
    rw [deleteCalls_append]
    exact List.append_nil _
  by_cases h1 : fstyn = "y"
  · subst h1
    by_cases h2 : yn = "y"
    · subst h2
      have hy := confirmationGate_yes client env toDelete w
      refine ⟨fun _ _ => hy, fun h => absurd rfl h, fun _ h => absurd rfl h, ?_, ?_, ?_, ?_⟩
      · rw [hy]
        cases hd : deleteSecrets client env toDelete
            { store := w.store
              trace := w.trace ++ [Event.question firstPrompt, Event.question secondPrompt,
                Event.timeStart "Done in"] } with
        | mk r w4 =>
          cases r with
          | ok u => simp
          | error e => simp
      · rw [hy]
        cases hd : deleteSecrets client env toDelete
            { store := w.store
              trace := w.trace ++ [Event.question firstPrompt, Event.question secondPrompt,
                Event.timeStart "Done in"] } with
        | mk r w4 =>
          cases r with
          | ok u => simp
          | error e => simp
      · intro h
        exact absurd ⟨rfl, rfl⟩ h
      · intro hdry _ _
        rw [hy, dryRun_result client env hdry]
        refine ⟨rfl, ?_, rfl⟩
        show deleteCalls (((w.trace ++ _) ++ _) ++ _) = _
        rw [deleteCalls_append, deleteCalls_append, deleteCalls_append]
        rw [deleteCalls_dry_lines]
        simp [deleteCalls]
    · have hn := confirmationGate_no_second client env toDelete yn w h2
      refine ⟨fun _ h => absurd h h2, fun h => absurd rfl h, fun _ _ => hn, ?_, ?_, ?_, ?_⟩
      · rw [hn]
        simp [h2]
      · rw [hn]
        simp [h2]
      · intro _
        rw [hn]
        exact ⟨hq2 _, rfl⟩
      · intro _ _ h
        exact absurd h h2
  · have hn := confirmationGate_no_first client env toDelete fstyn yn w h1
    refine ⟨fun h => absurd h h1, fun _ => hn, fun h => absurd h h1, ?_, ?_, ?_, ?_⟩
    · rw [hn]
      simp [h1]
    · rw [hn]
      simp [h1]
    · intro _
      rw [hn]
      exact ⟨hq1 _, rfl⟩
    · intro _ h
      exact absurd h h1

/-- Witness for the amended C3: a refused first question, a refused second
question, and two confirmations over a store that holds the secret. -/
theorem confirmationGate_spec_witness :
    "n" ≠ "y" ∧
    confirmationGate listStore emptyEnv [⟨"projects/p/secrets/a", ""⟩] "n" "y" twoHeld =
      (Outcome.exit 1,
        { store := twoHeld.store
          trace := twoHeld.trace ++
            [Event.question firstPrompt, Event.rlClose, Event.print scaredHint] }) ∧
    (confirmationGate listStore emptyEnv [⟨"projects/p/secrets/a", ""⟩] "y" "y" twoHeld).1 =
      Outcome.exit 0 :=
  ⟨by decide,
   (confirmationGate_spec listStore emptyEnv [⟨"projects/p/secrets/a", ""⟩] "n" "y" twoHeld).2.1
     (by decide),
   (confirmationGate_spec listStore emptyEnv [⟨"projects/p/secrets/a", ""⟩] "y" "y"
     twoHeld).2.2.2.1.2 ⟨rfl, rfl, by simp [deleteSecrets, emptyEnv, listStore, twoHeld]⟩⟩

/-! ## The reporter `displaySkipped` -/

theorem displaySkipped_foldl (skipped : List Secret) (acc : String) :
    skipped.foldl
      (fun str s =>
        match fourthSegment s.name with
        | some name => if truthy (some name) then str ++ ("- " ++ name ++ "\n") else str
        | none => str)
      acc = acc ++ bulletLines (skipped.filterMap shortName) := by
  induction skipped generalizing acc with
  | nil => simp [bulletLines]
  | cons s t ih =>
    rw [List.foldl_cons, ih]
    unfold shortName
    cases hseg : fourthSegment s.name with
    | none => simp [List.filterMap_cons, shortName, hseg]
    | some n =>
      by_cases hn : n = ""
      · simp [List.filterMap_cons, shortName, hseg, hn, truthy]
      · simp [List.filterMap_cons, shortName, hseg, hn, truthy, bulletLines, String.append_assoc]

theorem displaySkipped_eq (skipped : List Secret) :
    displaySkipped skipped = bulletLines (skipped.filterMap shortName) := by
  unfold displaySkipped
  rw [displaySkipped_foldl]
  simp

theorem splitChars_append_sep (sep : Char) (a b : List Char) (h : sep ∉ a) :
    splitChars sep (a ++ sep :: b) = a :: splitChars sep b := by
  induction a with
  | nil => simp [splitChars]
  | cons c t ih =>
    have hc : c ≠ sep := fun e => h (by simp [e])
    have ht : sep ∉ t := fun e => h (List.mem_cons_of_mem _ e)
    rw [List.cons_append, splitChars, if_neg hc, ih ht]

theorem jsSplit_bulletLines (names : List String) (h : ∀ n, n ∈ names → '\n' ∉ n.data) :
    jsSplit (bulletLines names) '\n' = names.map (fun n => "- " ++ n) ++ [""] := by
  induction names with
  | nil => rfl
  | cons n t ih =>
    have hn : '\n' ∉ ("- " ++ n).data := by
      have := h n (List.mem_cons_self _ _)
      simp only [String.data_append, List.mem_append, not_or]
      exact ⟨by decide, this⟩
    have ht := ih (fun m hm => h m (List.mem_cons_of_mem _ hm))
    unfold jsSplit at ht ⊢
    have hd : (bulletLines (n :: t)).data = ("- " ++ n).data ++ '\n' :: (bulletLines t).data := by
      simp [bulletLines, String.data_append]
    rw [hd, splitChars_append_sep _ _ _ hn, List.map_cons, ht]
    rfl

/-- C8, as stated, fails in two ways.  `displaySkipped` leaves out a secret
whose name has no non-empty fourth segment: a list of one such secret gives no
line, and a list of two secrets of which one has no short-name gives one line.
And a short-name that contains a newline spreads over several lines: one
secret of short-name `a`, newline, `b`, a secret that `whatToDelete` returns
as skipped, gives the two lines `- a` and `b`. -/
theorem displaySkipped_counterexample :
    displaySkipped [⟨"projects/p", ""⟩] = "" ∧
    displaySkipped [⟨"projects/p/secrets/a", ""⟩, ⟨"projects/p/secrets/", ""⟩] = "- a\n" ∧
    displaySkipped [⟨"projects/p/secrets/a\nb", ""⟩] = "- a\nb\n" ∧
    jsSplit (displaySkipped [⟨"projects/p/secrets/a\nb", ""⟩]) '\n' = ["- a", "b", ""] ∧
    (whatToDelete [⟨"projects/p/secrets/a\nb", ""⟩] ["a\nb"]).skipped =
      [⟨"projects/p/secrets/a\nb", ""⟩] := by
  decide

/-- C8, amended: `displaySkipped` returns the empty string on the empty list,
and for every list it returns the concatenation, in list order, of one entry
`- `, short-name, newline for each secret that has a short-name; a secret
without a short-name contributes nothing.  For a list of N secrets that all
have a short-name, as every `skipped` list returned by `whatToDelete` has,
these are exactly N entries, one per secret.  When in addition no short-name
contains a newline, the output is exactly N lines, one per secret in list
order, each being `- ` followed by the short-name of that secret: split at the
newlines it gives these N lines and the empty rest after the final newline. -/
theorem displaySkipped_lines (skipped : List Secret) :
    displaySkipped [] = "" ∧
    displaySkipped skipped = bulletLines (skipped.filterMap shortName) ∧
    ((∀ s, s ∈ skipped → (shortName s).isSome = true) →
      (skipped.filterMap shortName).length = skipped.length ∧
      skipped.filterMap shortName = skipped.map (fun s => (shortName s).getD "") ∧
      ((∀ s, s ∈ skipped → '\n' ∉ ((shortName s).getD "").data) →
        jsSplit (displaySkipped skipped) '\n' =
          skipped.map (fun s => "- " ++ (shortName s).getD "") ++ [""])) ∧
    (∀ secrets skips s, s ∈ (whatToDelete secrets skips).skipped →
      (shortName s).isSome = true) := by
  refine ⟨rfl, displaySkipped_eq skipped, ?_, ?_⟩
  · intro hall
    have hmap : skipped.filterMap shortName = skipped.map (fun s => (shortName s).getD "") := by
      induction skipped with
      | nil => rfl
      | cons s t ih =>
        obtain ⟨n, hn⟩ := Option.isSome_iff_exists.1 (hall s (List.mem_cons_self _ _))
        rw [List.filterMap_cons, hn, List.map_cons, hn,
          ih (fun x hx => hall x (List.mem_cons_of_mem _ hx))]
        rfl
    refine ⟨by rw [hmap, List.length_map], hmap, ?_⟩
    intro hnl
    rw [displaySkipped_eq, jsSplit_bulletLines, hmap, List.map_map]
    · rfl
    · intro n hn
      obtain ⟨x, hx, hxn⟩ := List.mem_filterMap.1 hn
      have hx2 := hnl x hx
      rw [hxn] at hx2
      exact hx2
  · intro secrets skips s hs
    rw [whatToDelete_eq] at hs
    obtain ⟨n, hn, _⟩ := (inSkipList_iff skips s).1 (List.mem_filter.1 hs).2
    rw [hn]
    rfl

/-- Witness for the amended C8: two secrets with short-names free of newlines
give two lines. -/
theorem displaySkipped_lines_witness :
    jsSplit (displaySkipped [⟨"projects/p/secrets/a", ""⟩, ⟨"projects/p/secrets/b", ""⟩]) '\n' =
      ([⟨"projects/p/secrets/a", ""⟩, ⟨"projects/p/secrets/b", ""⟩] : List Secret).map
        (fun s => "- " ++ (shortName s).getD "") ++ [""] :=
  ((displaySkipped_lines [⟨"projects/p/secrets/a", ""⟩, ⟨"projects/p/secrets/b", ""⟩]).2.2.1
    (by decide)).2.2 (by decide)

/-! ## The configuration loader: `envOrThrow` and `getSkips` -/

/-- The read `process.env[name]` of a name that `Object.prototype` does not
have is the variable itself; so it is for `DRY_RUN`, which `deleteSecrets`
compares with the string `true`. -/
theorem processEnv_own (env : Env) (name : String) (h : name ∉ objectPrototypeKeys) :
    processEnv env name = (env name).map EnvValue.str := by
  unfold processEnv
  cases env name <;> simp [h]

theorem processEnv_dry_run (env : Env) :
    processEnv env "DRY_RUN" = some (EnvValue.str "true") ↔ env "DRY_RUN" = some "true" := by
  rw [processEnv_own env "DRY_RUN" (by decide)]
  cases env "DRY_RUN" <;> simp

/-- For a name that `Object.prototype` does not have, `envOrThrow` returns the
value of the variable when it is set to a non-empty string (and returns nothing
else), and it fails if and only if the variable is unset or set to the empty
string.  For every name, a failure is a `MissingEnv` whose message contains the
name of the variable. -/
theorem envOrThrow_own_names (env : Env) (name : String) (hname : name ∉ objectPrototypeKeys) :
    (∀ v, env name = some v → v ≠ "" → envOrThrow env name = Except.ok (EnvValue.str v)) ∧
    (∀ r, envOrThrow env name = Except.ok r →
      ∃ v, r = EnvValue.str v ∧ env name = some v ∧ v ≠ "") ∧
    ((∃ e, envOrThrow env name = Except.error e) ↔ (env name = none ∨ env name = some "")) ∧
    (∀ e, envOrThrow env name = Except.error e →
      e.name = "MissingEnv" ∧
      e.message = "You must provide " ++ name ++ " as an environement variable" ∧
      name.data <:+: e.message.data) := by
  have hmsg : ∀ e, e = MissingEnv.new name →
      e.name = "MissingEnv" ∧
      e.message = "You must provide " ++ name ++ " as an environement variable" ∧
      name.data <:+: e.message.data := by
    intro e he
    subst he
    exact ⟨rfl, rfl, ⟨"You must provide ".data, " as an environement variable".data, by
      simp [MissingEnv.new, String.data_append]⟩⟩
  unfold envOrThrow
  rw [processEnv_own env name hname]
  cases hres : env name with
  | none =>
    refine ⟨by simp, by simp, by simp, ?_⟩
    intro e he
    simp at he
    exact hmsg e he.symm
  | some v =>
    by_cases hv : v = ""
    · subst hv
      refine ⟨by simp, by simp [truthyEnv], by simp [truthyEnv], ?_⟩
      intro e he
      simp [truthyEnv] at he
      exact hmsg e he.symm
    · refine ⟨by simp [truthyEnv, hv], ?_, by simp [truthyEnv, hv], by simp [truthyEnv, hv]⟩
      intro r hr
      simp [truthyEnv, hv] at hr
      exact ⟨v, hr.symm, rfl, hv⟩

/-- An instance of the preceding statement: a set variable is returned, an
unset one is reported by name. -/
theorem envOrThrow_own_names_example :
    "PROJECT" ∉ objectPrototypeKeys ∧
    envOrThrow (fun v => if v = "PROJECT" then some "projects/p" else none) "PROJECT" =
      Except.ok (EnvValue.str "projects/p") ∧
    envOrThrow (fun v => if v = "PROJECT" then some "projects/p" else none)
        "GOOGLE_APPLICATION_CREDENTIALS" =
      Except.error (MissingEnv.new "GOOGLE_APPLICATION_CREDENTIALS") :=
  ⟨by decide,
   (envOrThrow_own_names (fun v => if v = "PROJECT" then some "projects/p" else none) "PROJECT"
      (by decide)).1 "projects/p" (by decide) (by decide),
   by simp [envOrThrow, processEnv, objectPrototypeKeys]⟩

/-- C9 on the code: for a name that `Object.prototype` has, such as `toString`,
and no variable of that name, the read `process.env[name]` yields the inherited
member, which is truthy, so `envOrThrow` returns it and throws nothing; the
claim says it fails with `MissingEnv` whenever the variable is absent.  A
variable of that name set to the empty string is still reported missing. -/
theorem envOrThrow_inherited_name :
    emptyEnv "toString" = none ∧
    envOrThrow emptyEnv "toString" = Except.ok (EnvValue.inherited "toString") ∧
    (∀ e, envOrThrow emptyEnv "toString" ≠ Except.error e) ∧
    envOrThrow (fun v => if v = "toString" then some "" else none) "toString" =
      Except.error (MissingEnv.new "toString") ∧
    (∀ key, key ∈ objectPrototypeKeys →
      envOrThrow emptyEnv key = Except.ok (EnvValue.inherited key)) := by
  refine ⟨rfl, ?_, ?_, ?_, ?_⟩
  · simp [envOrThrow, processEnv, emptyEnv, objectPrototypeKeys, truthyEnv]
  · intro e
    simp [envOrThrow, processEnv, emptyEnv, objectPrototypeKeys, truthyEnv]
  · simp [envOrThrow, processEnv, truthyEnv]
  · intro key hkey
    simp [envOrThrow, processEnv, emptyEnv, hkey, truthyEnv]

theorem getSkips_foldl (ls acc : List String) :
    ls.foldl (fun skips l => if l.length = 0 then skips else skips ++ [jsTrim l]) acc =
      acc ++ (ls.filter (fun l => decide (l.length ≠ 0))).map jsTrim := by
  induction ls generalizing acc with
  | nil => simp
  | cons l t ih =>
    rw [List.foldl_cons, ih]
    by_cases h : l.length = 0 <;> simp [List.filter_cons, h]

/-- What `getSkips` computes: nothing for an absent file; otherwise the lines
of the file that are not of length zero, each trimmed after that test. -/
theorem getSkips_eq (file : Option String) :
    getSkips file =
      match file with
      | none => []
      | some raw => ((jsSplit raw '\n').filter (fun l => decide (l.length ≠ 0))).map jsTrim := by
  cases file with
  | none => rfl
  | some raw =>
    unfold getSkips
    simp only []
    rw [getSkips_foldl]
    simp

/-- C7 on the code: a whitespace-only line is not of length zero, so it is
kept and trimmed to the empty string.  A file with a line of two spaces, or a
file with CRLF line ends and a blank line, yields an empty name; the claim
says blank lines contribute no entry and every returned name is non-empty. -/
theorem getSkips_whitespace_line :
    getSkips (some "a\n  \nb\n") = ["a", "", "b"] ∧
    getSkips (some "a\r\n\r\nb\r\n") = ["a", "", "b"] ∧
    "" ∈ getSkips (some "a\n  \nb\n") ∧
    getSkips (some "a\n\nb\n") = ["a", "b"] ∧
    getSkips none = [] := by
  decide

end CleanSecrets
